import Mathlib

/-!
Verification of the Artisan-Hosting generic_runner supervision engine.

The definitions below are a shallow embedding of the Rust sources:
  - `src/main.rs`   : the main supervision loop (change aggregation, periodic
                      health tick, reload handling, graceful exit),
  - `src/child.rs`  : `run_one_shot_process` / `run_install_process`,
  - `src/monitor.rs`: the change filter in `monitor_directory`.

Pure data manipulation (lists, counters, status words) is translated
directly; interactions with the operating system (spawning, killing,
metrics sampling, filesystem notifications) are modelled as explicit
input parameters carrying the outcome the OS would report, so every
definition is executable.  Functions supplied by the external
`artisan_middleware` crate (`log_error`, `wind_down_state`,
`update_state`) are not part of this repository; where a claim depends
on them they are modelled from the specification and the modelling is
stated in the doc comment.
-/

namespace GenericRunner

/-- Lifecycle status values used by the engine
(`artisan_middleware::aggregator::Status` as used in `main.rs`). -/
inductive StatusM
  | Starting
  | Building
  | Running
  | Warning
  | Stopping
  deriving DecidableEq, Repr

/-- Error kinds used by the engine
(the variants of `dusa_collection_utils::core::errors::Errors` that appear
in `main.rs` and `child.rs`). -/
inductive ErrKind
  | GeneralError
  | OverRamLimit
  | TimedOut
  | InputOutput
  deriving DecidableEq, Repr

/-- An entry of the persisted error log (`ErrorArrayItem`): an error kind
plus its message. -/
structure ErrorItem where
  kind : ErrKind
  mesg : String
  deriving DecidableEq, Repr

/-- The error-log entry pushed on a memory-ceiling breach
(`main.rs` line 327). -/
def overRamEntry : ErrorItem :=
  ⟨ErrKind.OverRamLimit, "Application has exceeded ram limit"⟩

/-- The error-log entry pushed when metrics retrieval fails
(`main.rs` line 333). -/
def metricFailEntry : ErrorItem :=
  ⟨ErrKind.GeneralError, "Failed to get metric data from the child"⟩

/-- The error returned by `run_one_shot_process` on a non-zero build exit
(`child.rs` lines 157-160). -/
def buildFailEntry : ErrorItem :=
  ⟨ErrKind.GeneralError, "Build command exited with status: failure"⟩

/-- The error returned by `run_install_process` on a non-zero install
exit (`child.rs` lines 230-233). -/
def installFailEntry : ErrorItem :=
  ⟨ErrKind.GeneralError, "Install command exited with status: failure"⟩

/-! ## Consecutive deduplication (Rust `Vec::dedup`)

`Vec::dedup` removes consecutive repeated elements, keeping the first of
each run.  It is used on the stdout/stderr buffers (`main.rs` lines 253,
272) and on the error log (`main.rs` line 317). -/

/-- Remove consecutive duplicate elements, keeping the first of each run
(the semantics of Rust `Vec::dedup`). -/
def dedupConsec {α : Type} [DecidableEq α] : List α → List α
  | [] => []
  | [a] => [a]
  | a :: b :: rest =>
      if a = b then dedupConsec (b :: rest) else a :: dedupConsec (b :: rest)

theorem dedupConsec_sublist {α : Type} [DecidableEq α] (l : List α) :
    (dedupConsec l).Sublist l := by
  induction l with
  | nil => simp [dedupConsec]
  | cons a t ih =>
      cases t with
      | nil => simp [dedupConsec]
      | cons b rest =>
          by_cases h : a = b
          · simpa [dedupConsec, h] using (ih.cons a)
          · simpa [dedupConsec, h] using ih.cons₂ a

theorem mem_dedupConsec {α : Type} [DecidableEq α] {x : α} {l : List α} :
    x ∈ dedupConsec l ↔ x ∈ l := by
  constructor
  · exact fun h => (dedupConsec_sublist l).mem h
  · intro h
    induction l with
    | nil => simp at h
    | cons a t ih =>
        cases t with
        | nil => simpa [dedupConsec] using h
        | cons b rest =>
            by_cases hab : a = b
            · rcases List.mem_cons.mp h with rfl | h2
              · simpa [dedupConsec, hab] using ih (by simp [hab])
              · simpa [dedupConsec, hab] using ih h2
            · rcases List.mem_cons.mp h with rfl | h2
              · simp [dedupConsec, hab]
              · simp only [dedupConsec, hab, if_false, List.mem_cons]
                exact Or.inr (ih h2)

theorem length_dedupConsec_le {α : Type} [DecidableEq α] (l : List α) :
    (dedupConsec l).length ≤ l.length :=
  (dedupConsec_sublist l).length_le

/-- The head of `dedupConsec (b :: rest)` is `b` itself: a run of elements
equal to `b` collapses onto its first occurrence. -/
theorem head_dedupConsec {α : Type} [DecidableEq α] {b c : α} {rest cs : List α}
    (h : dedupConsec (b :: rest) = c :: cs) : c = b := by
  induction rest generalizing b cs with
  | nil =>
      have hbc : b = c := by simpa [dedupConsec] using congrArg (fun l => l.head?) h
      exact hbc.symm
  | cons d ds ih2 =>
      by_cases hbd : b = d
      · have h2 : dedupConsec (d :: ds) = c :: cs := by
          simpa [dedupConsec, hbd] using h
        exact (ih2 h2).trans hbd.symm
      · have hbc : b = c := by
          simpa [dedupConsec, hbd] using congrArg (fun l => l.head?) h
        exact hbc.symm

/-- The output of `dedupConsec` never has two equal adjacent elements. -/
theorem chain'_ne_dedupConsec {α : Type} [DecidableEq α] (l : List α) :
    List.Chain' (fun a b => a ≠ b) (dedupConsec l) := by
  induction l with
  | nil => simp [dedupConsec]
  | cons a t ih =>
      cases t with
      | nil => simp [dedupConsec]
      | cons b rest =>
          by_cases hab : a = b
          · simpa [dedupConsec, hab] using ih
          · simp only [dedupConsec, hab, if_false]
            cases hd : dedupConsec (b :: rest) with
            | nil => simp
            | cons c cs =>
                refine List.Chain'.cons ?_ (hd ▸ ih)
                intro hac
                exact hab (hac ▸ (head_dedupConsec hd) ▸ rfl)

/-- On a list with no two equal adjacent elements, `dedupConsec` is the
identity; in particular `dedupConsec` is idempotent. -/
theorem dedupConsec_eq_self_of_chain' {α : Type} [DecidableEq α] {l : List α}
    (h : List.Chain' (fun a b => a ≠ b) l) : dedupConsec l = l := by
  induction l with
  | nil => rfl
  | cons a t ih =>
      cases t with
      | nil => rfl
      | cons b rest =>
          have hab : a ≠ b := List.chain'_cons.mp h |>.1
          have ht : List.Chain' (fun a b => a ≠ b) (b :: rest) :=
            List.chain'_cons.mp h |>.2
          simp [dedupConsec, hab, ih ht]

theorem dedupConsec_idem {α : Type} [DecidableEq α] (l : List α) :
    dedupConsec (dedupConsec l) = dedupConsec l :=
  dedupConsec_eq_self_of_chain' (chain'_ne_dedupConsec l)

/-! ## stdout/stderr merge (`main.rs` lines 238-274)

Each periodic tick drains the lines captured from the child since the
last drain and merges them into the engine state's buffer:

    let new_values = current.into_iter()
        .filter(|val| !state.stdout.contains(val)).collect();
    state.stdout.extend(new_values);
    state.stdout.sort_by_key(|val| val.0);
    state.stdout.dedup();

`sort_by_key` is Rust's stable sort keyed on the timestamp; we embed it
as `List.mergeSort` (also a stable merge sort) with the timestamp
ordering. -/

/-- A captured output line: `(timestamp, line)` as in `Vec<(u64, String)>`. -/
abbrev OutLine := Nat × String

/-- Comparison used by `sort_by_key(|val| val.0)`: order by timestamp. -/
def outLe (a b : OutLine) : Bool := a.1 ≤ b.1

theorem outLe_trans (a b c : OutLine) :
    outLe a b = true → outLe b c = true → outLe a c = true := by
  simp only [outLe, decide_eq_true_eq]
  exact Nat.le_trans

theorem outLe_total (a b : OutLine) : (outLe a b || outLe b a) = true := by
  simp only [outLe, Bool.or_eq_true, decide_eq_true_eq]
  exact Nat.le_total a.1 b.1

/-- One merge of a drained batch into a buffer, mirroring
`main.rs` lines 246-253 (and identically 265-272 for stderr):
keep only batch entries not already in the buffer, append them,
sort stably by timestamp, remove consecutive duplicates. -/
def mergeNewOutput (buf batch : List OutLine) : List OutLine :=
  let newValues := batch.filter (fun v => !(buf.contains v))
  dedupConsec ((buf ++ newValues).mergeSort outLe)

/-- The code only performs the merge when the drained batch is non-empty
(`main.rs` lines 245, 264). -/
def stdMerge (buf batch : List OutLine) : List OutLine :=
  if batch.isEmpty then buf else mergeNewOutput buf batch

theorem mem_mergeNewOutput_of_mem_batch {buf batch : List OutLine} {v : OutLine}
    (hv : v ∈ batch) : v ∈ mergeNewOutput buf batch := by
  unfold mergeNewOutput
  rw [mem_dedupConsec, (List.mergeSort_perm _ _).mem_iff, List.mem_append]
  by_cases hb : v ∈ buf
  · exact Or.inl hb
  · refine Or.inr (List.mem_filter.mpr ⟨hv, ?_⟩)
    simp [hb]

theorem mem_mergeNewOutput_of_mem_buf {buf batch : List OutLine} {v : OutLine}
    (hv : v ∈ buf) : v ∈ mergeNewOutput buf batch := by
  unfold mergeNewOutput
  rw [mem_dedupConsec, (List.mergeSort_perm _ _).mem_iff, List.mem_append]
  exact Or.inl hv

/-- The result of a merge is sorted by timestamp. -/
theorem mergeNewOutput_sorted (buf batch : List OutLine) :
    List.Pairwise (fun a b => outLe a b = true) (mergeNewOutput buf batch) := by
  unfold mergeNewOutput
  exact (List.sorted_mergeSort outLe_trans outLe_total _).sublist
    (dedupConsec_sublist _)

/-- The result of a merge has no two equal consecutive entries. -/
theorem mergeNewOutput_chain'_ne (buf batch : List OutLine) :
    List.Chain' (fun a b => a ≠ b) (mergeNewOutput buf batch) :=
  chain'_ne_dedupConsec _

/-- Merging a batch whose entries are all already present into a sorted,
consecutive-duplicate-free buffer leaves the buffer unchanged. -/
theorem mergeNewOutput_eq_self {B batch : List OutLine}
    (hmem : ∀ v ∈ batch, v ∈ B)
    (hsorted : List.Pairwise (fun a b => outLe a b = true) B)
    (hne : List.Chain' (fun a b => a ≠ b) B) :
    mergeNewOutput B batch = B := by
  unfold mergeNewOutput
  have hfilter : batch.filter (fun v => !(B.contains v)) = [] := by
    rw [List.filter_eq_nil_iff]
    intro v hv
    simp [hmem v hv]
  simp only [hfilter, List.append_nil]
  rw [List.mergeSort_of_sorted hsorted, dedupConsec_eq_self_of_chain' hne]

/-! ## Change filter (`src/monitor.rs`, `monitor_directory`)

A filesystem path is embedded as an absolute-flag plus a list of
components.  `Path::join` in Rust replaces the base entirely when the
argument is absolute, and extends the component list otherwise;
`Path::starts_with` is a whole-component prefix test that also requires
agreement on absoluteness (`/a/b` starts with `/a`, but `/a/barbaz`
does not start with `/a/b`, and `a/b` does not start with `/a`). -/

/-- A filesystem path: whether it is absolute, and its components. -/
structure PathM where
  abs : Bool
  comps : List String
  deriving DecidableEq, Repr

/-- Rust `Path::join`: an absolute argument replaces the base. -/
def PathM.join (base arg : PathM) : PathM :=
  if arg.abs then arg else ⟨base.abs, base.comps ++ arg.comps⟩

/-- Rust `Path::starts_with`: component-wise ancestor-or-self prefix. -/
def PathM.startsWith (p pre : PathM) : Bool :=
  p.abs == pre.abs && pre.comps.isPrefixOf p.comps

/-- A raw change notification carries one or more affected paths
(`notify::Event.paths`). -/
abbrev EventM := List PathM

/-- Normalization of the ignored subdirectories against the monitored
directory (`monitor.rs` lines 40-47): each configured ignored path is
joined onto the monitored directory. -/
def resolveIgnored (dir : PathM) (ignoredSubdirs : List PathM) : List PathM :=
  ignoredSubdirs.map (fun p => dir.join p)

/-- The drop test of the event-forwarding thread (`monitor.rs` lines
68-72): an event is ignored when any of its paths starts with any of the
resolved ignored paths. -/
def shouldIgnore (ignoredResolved : List PathM) (ev : EventM) : Bool :=
  ev.any (fun path => ignoredResolved.any (fun ignored => path.startsWith ignored))

/-- The stream republished to the async consumer (`monitor.rs` lines
74-94): ignored events are skipped with `continue`, every other event is
sent on unchanged. -/
def forwardEvents (dir : PathM) (ignoredSubdirs : List PathM)
    (events : List EventM) : List EventM :=
  events.filter (fun ev => !(shouldIgnore (resolveIgnored dir ignoredSubdirs) ev))

/-! ## One-shot build / install processes (`src/child.rs`)

`run_one_shot_process` and `run_install_process` split the configured
command into words, spawn it, push its captured output lines onto the
engine state, wait for it, and map the exit status to `Ok`/`Err`.
Spawning, waiting and capture are operating-system interactions: the
embedding receives their combined outcome as a `RunOutcome` input and
the captured (timestamp, line) pairs as lists. -/

/-- The engine-state fields manipulated by the embedded code
(`artisan_middleware::state_persistence::AppState`). -/
structure AppStateM where
  status : StatusM
  errorLog : List ErrorItem
  stdout : List OutLine
  stderr : List OutLine
  data : String
  deriving DecidableEq, Repr

/-- Accumulating whitespace splitter over the character list: `acc`
holds the reversed characters of the word currently being read. -/
def splitWordsAux : List Char → List Char → List String
  | [], acc => if acc.isEmpty then [] else [String.mk acc.reverse]
  | ch :: rest, acc =>
      if ch.isWhitespace then
        if acc.isEmpty then splitWordsAux rest []
        else String.mk acc.reverse :: splitWordsAux rest []
      else splitWordsAux rest (ch :: acc)

/-- Word splitting of a configured command string.  The code uses
`shell_words::split` with a plain-whitespace fallback on parse errors;
for plain commands the two agree, and they agree in all cases on
whether the result is empty (both produce zero words exactly for an
all-whitespace string).  The embedding uses the whitespace split. -/
def splitWords (s : String) : List String :=
  splitWordsAux s.data []

/-- Outcome of spawning and waiting on a one-shot command, an input to
the embedding: the spawn itself can fail, the wait can fail, or the
command exits with a success flag. -/
inductive RunOutcome
  | spawnErr (e : ErrorItem)
  | waitErr (msg : String)
  | exited (success : Bool)
  deriving DecidableEq, Repr

deriving instance DecidableEq for Except

/-- Result of a one-shot step: the returned `Result`, the updated engine
state, and whether a process spawn was attempted at all. -/
structure OneShotResult where
  result : Except ErrorItem Unit
  state : AppStateM
  spawnAttempted : Bool
  deriving DecidableEq, Repr

/-- The application-specific configuration fields used by the embedded
code (`AppSpecificConfig` in `src/config.rs`). -/
structure SettingsM where
  installCommand : Option String
  buildCommand : Option String
  deriving DecidableEq, Repr

/-- `run_one_shot_process` (`src/child.rs` lines 91-165).
`None` build command: skip with `Ok`.  Zero words after splitting: exit
prematurely with `Ok`.  Otherwise spawn, push the captured stdout/stderr
lines, and map the wait result: success exit to `Ok`, non-zero exit or
wait failure to `Err`; a spawn failure is returned as `Err` before any
capture. -/
def run_one_shot_process (settings : SettingsM) (st : AppStateM)
    (outcome : RunOutcome) (capturedOut capturedErr : List OutLine) :
    OneShotResult :=
  match settings.buildCommand with
  | none => ⟨Except.ok (), st, false⟩
  | some buildCmd =>
    match splitWords buildCmd with
    | [] => ⟨Except.ok (), st, false⟩
    | _ :: _ =>
      match outcome with
      | RunOutcome.spawnErr e => ⟨Except.error e, st, true⟩
      | RunOutcome.waitErr msg =>
          ⟨Except.error ⟨ErrKind.GeneralError, msg⟩,
           { st with stdout := st.stdout ++ capturedOut,
                     stderr := st.stderr ++ capturedErr }, true⟩
      | RunOutcome.exited success =>
          let st := { st with stdout := st.stdout ++ capturedOut,
                              stderr := st.stderr ++ capturedErr }
          if success then ⟨Except.ok (), st, true⟩
          else ⟨Except.error buildFailEntry, st, true⟩

/-- `run_install_process` (`src/child.rs` lines 168-238): identical
shape to `run_one_shot_process` over the install command. -/
def run_install_process (settings : SettingsM) (st : AppStateM)
    (outcome : RunOutcome) (capturedOut capturedErr : List OutLine) :
    OneShotResult :=
  match settings.installCommand with
  | none => ⟨Except.ok (), st, false⟩
  | some installCmd =>
    match splitWords installCmd with
    | [] => ⟨Except.ok (), st, false⟩
    | _ :: _ =>
      match outcome with
      | RunOutcome.spawnErr e => ⟨Except.error e, st, true⟩
      | RunOutcome.waitErr msg =>
          ⟨Except.error ⟨ErrKind.GeneralError, msg⟩,
           { st with stdout := st.stdout ++ capturedOut,
                     stderr := st.stderr ++ capturedErr }, true⟩
      | RunOutcome.exited success =>
          let st := { st with stdout := st.stdout ++ capturedOut,
                              stderr := st.stderr ++ capturedErr }
          if success then ⟨Except.ok (), st, true⟩
          else ⟨Except.error installFailEntry, st, true⟩

/-! ## Startup sequence (`src/main.rs` lines 89-118)

The engine marks the state `Building`, runs the optional install step
(its failure is only written to the console log with `log!`), runs the
optional build step (its failure is written to the console log, appended
to the error ring with `log_error`, and ends the run before any
workload is spawned), then spawns the child and marks the state
`Running`.  `log_error` is supplied by `artisan_middleware`; it is
modelled from the spec: it appends the error to the persisted error
ring. -/

/-- Result of the startup sequence: the engine state, the errors written
only to the console log, and whether the run reached the spawn step. -/
structure StartupRes where
  state : AppStateM
  consoleErrors : List ErrorItem
  reachedSpawn : Bool
  deriving DecidableEq, Repr

/-- The startup sequence of `main` (`src/main.rs` lines 89-118). -/
def startupSequence (settings : SettingsM) (st0 : AppStateM)
    (installOutcome buildOutcome : RunOutcome)
    (iOut iErr bOut bErr : List OutLine) : StartupRes :=
  let st := { st0 with status := StatusM.Building }
  let afterInstall :=
    if settings.installCommand.isSome then
      let r := run_install_process settings st installOutcome iOut iErr
      match r.result with
      | Except.ok _ => (r.state, ([] : List ErrorItem))
      | Except.error e => (r.state, [e])
    else (st, [])
  let st := afterInstall.1
  let consoleErrs := afterInstall.2
  if settings.buildCommand.isSome then
    let r := run_one_shot_process settings st buildOutcome bOut bErr
    match r.result with
    | Except.ok _ =>
        ⟨{ r.state with status := StatusM.Running }, consoleErrs, true⟩
    | Except.error e =>
        ⟨{ r.state with errorLog := r.state.errorLog ++ [e] },
         consoleErrs ++ [e], false⟩
  else
    ⟨{ st with status := StatusM.Running }, consoleErrs, true⟩

/-! ## Graceful exit (`src/main.rs` lines 383-413)

When the graceful-exit flag is observed, the engine runs `child.kill()`
under a 5-second timeout.  The three outcomes are inputs to the
embedding.  `wind_down_state` and `log_error` are supplied by
`artisan_middleware` and are modelled from the spec: `wind_down_state`
persists the final state snapshot marking the record as stopping, and
`log_error` appends its error to the persisted error ring (and
persists).  The explicit `state.status = Status::Stopping` assignments
of the success and kill-error branches are in `main.rs` itself; the
timeout branch's `Stopping` mark comes from the modelled wind-down. -/

/-- Outcome of `timeout(Duration::from_secs(5), child.kill())`. -/
inductive KillOutcome
  | success
  | failed (e : ErrorItem)
  | timedOut (msg : String)
  deriving DecidableEq, Repr

/-- What the graceful-exit handler leaves behind: the final status, the
final error log, whether the final snapshot was persisted, and the
process exit code. -/
structure ShutdownRes where
  status : StatusM
  errorLog : List ErrorItem
  persisted : Bool
  exitCode : Nat
  deriving DecidableEq, Repr

/-- The graceful-exit handler (`src/main.rs` lines 383-413). -/
def gracefulExit (st : AppStateM) (k : KillOutcome) : ShutdownRes :=
  match k with
  | KillOutcome.success =>
      ⟨StatusM.Stopping, st.errorLog, true, 0⟩
  | KillOutcome.failed e =>
      ⟨StatusM.Stopping, st.errorLog ++ [e], true, 100⟩
  | KillOutcome.timedOut msg =>
      ⟨StatusM.Stopping, st.errorLog ++ [⟨ErrKind.TimedOut, msg⟩], true, 100⟩

/-! ## The main supervision loop (`src/main.rs` lines 111-424)

One iteration of the loop selects either a directory-change event or the
5-second periodic tick, then polls the reload flag (and then the
graceful-exit flag, embedded separately as `gracefulExit` since it exits
the process).  Child handles are embedded as numeric identifiers:
`localChild` is the handle held by the local variable `child` bound at
line 111, which is never reassigned afterwards; `globalChild` is the
handle currently stored in `GLOBAL_CHILD`; `live` lists the child
processes currently alive.  Outcomes of kills, builds and spawns are
inputs.  A `none` result means the run ended: either `main` returned
(build failure, after `log_error` appended the failure to the ring) or
the process exited (spawn failure or reload-kill failure, both
`exit(100)` after wind-down). -/

/-- Configuration consumed by the loop: the change threshold
(`settings.changes_needed`, an `i32`), whether a build command is
configured, and the memory ceiling (`state.config.max_ram_usage`
compared against the sampled usage as `f64`; embedded as a rational). -/
structure Cfg where
  changesNeeded : Int
  buildConfigured : Bool
  maxRam : ℚ
  deriving DecidableEq, Repr

/-- The loop's state: the change aggregation counter `change_count`, the
child handles, and the engine-state fields the loop mutates.
`rebuilds` and `resets` are ghost observers counting change-threshold
rebuilds and assignments of `change_count = 0` (line 226). -/
structure EngineSt where
  changeCount : Nat
  localChild : Nat
  globalChild : Nat
  live : List Nat
  nextH : Nat
  eventCounter : Nat
  status : StatusM
  errorLog : List ErrorItem
  stdout : List OutLine
  stderr : List OutLine
  data : String
  reloadPending : Bool
  rebuilds : Nat
  resets : Nat
  deriving DecidableEq, Repr

/-- The error-log maintenance of the tick (`main.rs` lines 316-320):
dedup, then evict the entry at index 0 (the oldest) when the log has
reached the cap of 5. -/
def trimLog (log : List ErrorItem) : List ErrorItem :=
  let d := dedupConsec log
  if 5 ≤ d.length then d.tail else d

/-- The metrics block of the tick (`main.rs` lines 322-337): on a
successful metrics read, append an `OverRamLimit` entry when the sampled
memory meets or exceeds the ceiling and set the status to `Running`; on
a failed read, append a `GeneralError` entry and set the status to
`Warning`.  Both sides persist the state (`update_state`). -/
def metricsBlock (cfg : Cfg) (st : EngineSt) (metrics : Option ℚ) : EngineSt :=
  let st := { st with data := "Nominal" }
  match metrics with
  | some mem =>
      let st :=
        if cfg.maxRam ≤ mem then
          { st with errorLog := st.errorLog ++ [overRamEntry] }
        else st
      { st with status := StatusM.Running }
  | none =>
      { st with data := "Failed to get metric data",
                errorLog := st.errorLog ++ [metricFailEntry],
                status := StatusM.Warning }

/-- The change-event branch (`main.rs` lines 171-227).  The counter is
incremented; at the threshold the engine pauses the monitor, bumps the
event counter, marks `Building`, kills the `GLOBAL_CHILD` handle (a kill
error only logs and stores the reload flag), runs the optional build
step (failure appends to the ring and returns from `main`), spawns and
installs a replacement via `replace_child` (the local `child` variable
is not reassigned), resumes the monitor and resets the counter. -/
def changeStep (cfg : Cfg) (st : EngineSt)
    (killOk buildOk spawnOk : Bool) : Option EngineSt :=
  let st := { st with changeCount := st.changeCount + 1 }
  if (st.changeCount : Int) ≥ cfg.changesNeeded then
    let st := { st with eventCounter := st.eventCounter + 1,
                        status := StatusM.Building }
    let st :=
      if killOk then { st with live := st.live.erase st.globalChild }
      else { st with reloadPending := true }
    if cfg.buildConfigured && !buildOk then none
    else if spawnOk then
      some { st with live := st.live ++ [st.nextH], globalChild := st.nextH,
                     nextH := st.nextH + 1, changeCount := 0,
                     rebuilds := st.rebuilds + 1, resets := st.resets + 1 }
    else none
  else some st

/-- The crash-respawn block of the tick (`main.rs` lines 284-313), run
when the `GLOBAL_CHILD` handle was found not running: kill the stale
local handle (its error ignored), run the optional build step (failure
ends the run), spawn a replacement, install it via `replace_child` and
mark the state `Running`. -/
def tickRespawn (cfg : Cfg) (st : EngineSt)
    (killOk buildOk spawnOk : Bool) : Option EngineSt :=
  let st :=
    if killOk then { st with live := st.live.erase st.localChild } else st
  if cfg.buildConfigured && !buildOk then none
  else if spawnOk then
    some { st with live := st.live ++ [st.nextH], globalChild := st.nextH,
                   nextH := st.nextH + 1,
                   data := "New child process spawned",
                   status := StatusM.Running }
  else none

/-- The output-draining block of the tick (`main.rs` lines 238-274):
merge the freshly captured stdout and stderr batches into the engine
state's buffers. -/
def tickDrain (st : EngineSt) (dOut dErr : List OutLine) : EngineSt :=
  { st with stdout := stdMerge st.stdout dOut,
            stderr := stdMerge st.stderr dErr }

/-- The liveness check of the tick (`main.rs` lines 276-278, 284):
when the `GLOBAL_CHILD` handle is still running nothing happens,
otherwise the crash-respawn block runs. -/
def tickLiveness (cfg : Cfg) (st : EngineSt)
    (killOk buildOk spawnOk : Bool) : Option EngineSt :=
  if st.live.contains st.globalChild then some st
  else tickRespawn cfg st killOk buildOk spawnOk

/-- The tail of the tick (`main.rs` lines 316-337): trim the error log,
then run the metrics block. -/
def tickFinish (cfg : Cfg) (metrics : Option ℚ) :
    Option EngineSt → Option EngineSt
  | none => none
  | some st =>
      some (metricsBlock cfg { st with errorLog := trimLog st.errorLog } metrics)

/-- The periodic-tick branch (`main.rs` lines 229-338).  `crashed` is
the external event that the supervised process died since the last
tick.  The tick merges drained output, respawns when the `GLOBAL_CHILD`
handle is not running, trims the error log, and runs the metrics
block. -/
def tickStep (cfg : Cfg) (st : EngineSt) (crashed killOk buildOk spawnOk : Bool)
    (dOut dErr : List OutLine) (metrics : Option ℚ) : Option EngineSt :=
  let st :=
    if crashed then { st with live := st.live.erase st.globalChild } else st
  tickFinish cfg metrics (tickLiveness cfg (tickDrain st dOut dErr) killOk buildOk spawnOk)

/-- The reload block (`main.rs` lines 346-381), run at the end of an
iteration when the reload flag is set: the configuration is reloaded and
the engine state regenerated (`generate_application_state` clears the
error log and the output buffers and marks the phase `Starting`), then
the local `child` handle is killed (kill failure winds down and exits
with code 100), the optional build step runs (failure ends the run), a
replacement is spawned and installed via `replace_child`, and the flag
is cleared.  The local `child` variable is not reassigned. -/
def reloadStep (cfg : Cfg) (st : EngineSt)
    (killOk buildOk spawnOk : Bool) : Option EngineSt :=
  let st := { st with errorLog := [], stdout := [], stderr := [],
                      status := StatusM.Starting, data := "Initializing" }
  if !killOk then none
  else
    let st := { st with live := st.live.erase st.localChild }
    if cfg.buildConfigured && !buildOk then none
    else if spawnOk then
      some { st with live := st.live ++ [st.nextH], globalChild := st.nextH,
                     nextH := st.nextH + 1, reloadPending := false }
    else none

/-- The two event sources selected by one loop iteration. -/
inductive Branch
  | change (killOk buildOk spawnOk : Bool)
  | tick (crashed killOk buildOk spawnOk : Bool)
      (dOut dErr : List OutLine) (metrics : Option ℚ)
  deriving DecidableEq, Repr

/-- Everything one iteration consumes: the selected branch, whether a
SIGHUP arrived during the iteration, and the outcomes used by the reload
block when it runs. -/
structure LoopInput where
  branch : Branch
  sighup : Bool
  reloadKillOk : Bool
  reloadBuildOk : Bool
  reloadSpawnOk : Bool
  deriving DecidableEq, Repr

def branchStep (cfg : Cfg) (st : EngineSt) : Branch → Option EngineSt
  | Branch.change k b s => changeStep cfg st k b s
  | Branch.tick c k b s dOut dErr m => tickStep cfg st c k b s dOut dErr m

/-- One full iteration of the main loop: the selected branch, then the
reload-flag check (`main.rs` line 346). -/
def step (cfg : Cfg) (st : EngineSt) (inp : LoopInput) : Option EngineSt :=
  match branchStep cfg st inp.branch with
  | none => none
  | some st1 =>
      let st2 := { st1 with reloadPending := st1.reloadPending || inp.sighup }
      if st2.reloadPending then
        reloadStep cfg st2 inp.reloadKillOk inp.reloadBuildOk inp.reloadSpawnOk
      else some st2

/-- Iterated main loop over a list of inputs. -/
def runLoop (cfg : Cfg) : EngineSt → List LoopInput → Option EngineSt
  | st, [] => some st
  | st, inp :: rest =>
      match step cfg st inp with
      | none => none
      | some st2 => runLoop cfg st2 rest

/-- The state on entry to the main loop (`main.rs` lines 111-168): the
first child (handle 0) was spawned, cloned into `GLOBAL_CHILD`, and is
running; `change_count` is 0; the status is `Running`; the error log was
cleared by `generate_application_state`. -/
def initSt : EngineSt :=
  { changeCount := 0, localChild := 0, globalChild := 0, live := [0],
    nextH := 1, eventCounter := 0, status := StatusM.Running,
    errorLog := [], stdout := [], stderr := [], data := "",
    reloadPending := false, rebuilds := 0, resets := 0 }

/-! ## Helper lemmas about the loop model -/

/-- A change-event iteration in which the kill, build and spawn all
succeed and no signal arrives. -/
def goodChangeInput : LoopInput :=
  { branch := Branch.change true true true, sighup := false,
    reloadKillOk := true, reloadBuildOk := true, reloadSpawnOk := true }

theorem runLoop_append (cfg : Cfg) (st : EngineSt) (l1 l2 : List LoopInput) :
    runLoop cfg st (l1 ++ l2) =
      (runLoop cfg st l1).bind (fun s => runLoop cfg s l2) := by
  induction l1 generalizing st with
  | nil => simp [runLoop]
  | cons i rest ih =>
      simp only [List.cons_append, runLoop]
      cases step cfg st i with
      | none => simp
      | some st2 => simp [ih st2]

theorem metricsBlock_live (cfg : Cfg) (st : EngineSt) (m : Option ℚ) :
    (metricsBlock cfg st m).live = st.live := by
  unfold metricsBlock
  cases m with
  | none => rfl
  | some mem => by_cases h : cfg.maxRam ≤ mem <;> simp [h]

theorem metricsBlock_ghost (cfg : Cfg) (st : EngineSt) (m : Option ℚ) :
    (metricsBlock cfg st m).changeCount = st.changeCount ∧
    (metricsBlock cfg st m).rebuilds = st.rebuilds ∧
    (metricsBlock cfg st m).resets = st.resets := by
  unfold metricsBlock
  cases m with
  | none => exact ⟨rfl, rfl, rfl⟩
  | some mem => by_cases h : cfg.maxRam ≤ mem <;> simp [h]

theorem metricsBlock_errorLog (cfg : Cfg) (st : EngineSt) (m : Option ℚ) :
    (metricsBlock cfg st m).errorLog = st.errorLog ∨
    (metricsBlock cfg st m).errorLog = st.errorLog ++ [overRamEntry] ∨
    (metricsBlock cfg st m).errorLog = st.errorLog ++ [metricFailEntry] := by
  unfold metricsBlock
  cases m with
  | none => exact Or.inr (Or.inr rfl)
  | some mem =>
      by_cases h : cfg.maxRam ≤ mem
      · exact Or.inr (Or.inl (by simp [h]))
      · exact Or.inl (by simp [h])

theorem trimLog_length_le {log : List ErrorItem} (h : log.length ≤ 5) :
    (trimLog log).length ≤ 4 := by
  unfold trimLog
  have hd := length_dedupConsec_le log
  by_cases h5 : 5 ≤ (dedupConsec log).length
  · simp only [h5, if_true, List.length_tail]
    omega
  · simp only [h5, if_false]
    omega

theorem changeStep_parts {cfg : Cfg} {st st2 : EngineSt} {k b s : Bool}
    (h : changeStep cfg st k b s = some st2) :
    st2.errorLog = st.errorLog ∧
    ((st2.changeCount = 0 ∧ st2.rebuilds = st.rebuilds + 1 ∧
        st2.resets = st.resets + 1) ∨
     (st2.changeCount = st.changeCount + 1 ∧ st2.rebuilds = st.rebuilds ∧
        st2.resets = st.resets)) := by
  cases k <;> cases s <;>
    · simp only [changeStep] at h
      split at h
      · split at h
        · exact absurd h (by simp)
        · split at h
          · injection h with h2
            subst h2
            exact ⟨rfl, Or.inl ⟨rfl, rfl, rfl⟩⟩
          · exact absurd h (by simp)
      · injection h with h2
        subst h2
        exact ⟨rfl, Or.inr ⟨rfl, rfl, rfl⟩⟩

theorem metricsBlock_push (cfg : Cfg) (st : EngineSt) (m : Option ℚ) :
    ∃ push : List ErrorItem, push.length ≤ 1 ∧
      (metricsBlock cfg st m).errorLog = st.errorLog ++ push := by
  rcases metricsBlock_errorLog cfg st m with h | h | h
  · exact ⟨[], by simp, by simp [h]⟩
  · exact ⟨[overRamEntry], by simp, h⟩
  · exact ⟨[metricFailEntry], by simp, h⟩

theorem tickRespawn_parts {cfg : Cfg} {st st2 : EngineSt} {k b s : Bool}
    (h : tickRespawn cfg st k b s = some st2) :
    st2.errorLog = st.errorLog ∧ st2.changeCount = st.changeCount ∧
    st2.rebuilds = st.rebuilds ∧ st2.resets = st.resets := by
  cases k <;> cases s <;>
    · simp only [tickRespawn] at h
      split at h
      · exact absurd h (by simp)
      · split at h
        · injection h with h2
          subst h2
          exact ⟨rfl, rfl, rfl, rfl⟩
        · exact absurd h (by simp)

theorem tickLiveness_parts {cfg : Cfg} {st st2 : EngineSt} {k b s : Bool}
    (h : tickLiveness cfg st k b s = some st2) :
    st2.errorLog = st.errorLog ∧ st2.changeCount = st.changeCount ∧
    st2.rebuilds = st.rebuilds ∧ st2.resets = st.resets := by
  unfold tickLiveness at h
  split at h
  · injection h with h2
    subst h2
    exact ⟨rfl, rfl, rfl, rfl⟩
  · exact tickRespawn_parts h

theorem tickFinish_parts {cfg : Cfg} {o : Option EngineSt} {stM st2 : EngineSt}
    {m : Option ℚ} (ho : o = some stM) (h : tickFinish cfg m o = some st2) :
    (∃ push : List ErrorItem, push.length ≤ 1 ∧
        st2.errorLog = trimLog stM.errorLog ++ push) ∧
    st2.changeCount = stM.changeCount ∧ st2.rebuilds = stM.rebuilds ∧
    st2.resets = stM.resets := by
  subst ho
  unfold tickFinish at h
  injection h with h2
  subst h2
  obtain ⟨push, hp1, hp2⟩ :=
    metricsBlock_push cfg { stM with errorLog := trimLog stM.errorLog } m
  obtain ⟨g1, g2, g3⟩ := metricsBlock_ghost cfg
    { stM with errorLog := trimLog stM.errorLog } m
  exact ⟨⟨push, hp1, hp2⟩, g1, g2, g3⟩

theorem tickStep_parts {cfg : Cfg} {st st2 : EngineSt}
    {c k b s : Bool} {dOut dErr : List OutLine} {m : Option ℚ}
    (h : tickStep cfg st c k b s dOut dErr m = some st2) :
    (∃ push : List ErrorItem, push.length ≤ 1 ∧
        st2.errorLog = trimLog st.errorLog ++ push) ∧
    st2.changeCount = st.changeCount ∧ st2.rebuilds = st.rebuilds ∧
    st2.resets = st.resets := by
  simp only [tickStep] at h
  cases hl : tickLiveness cfg
      (tickDrain (if c then { st with live := st.live.erase st.globalChild }
        else st) dOut dErr) k b s with
  | none => rw [hl] at h; exact absurd h (by simp [tickFinish])
  | some stM =>
      obtain ⟨f1, f2, f3, f4⟩ := tickFinish_parts hl h
      obtain ⟨l1, l2, l3, l4⟩ := tickLiveness_parts hl
      have hD : ∀ stX : EngineSt, (tickDrain stX dOut dErr).errorLog = stX.errorLog ∧
          (tickDrain stX dOut dErr).changeCount = stX.changeCount ∧
          (tickDrain stX dOut dErr).rebuilds = stX.rebuilds ∧
          (tickDrain stX dOut dErr).resets = stX.resets :=
        fun stX => ⟨rfl, rfl, rfl, rfl⟩
      have hC : ∀ stX : EngineSt,
          ((if c then { stX with live := stX.live.erase stX.globalChild }
            else stX) : EngineSt).errorLog = stX.errorLog ∧
          ((if c then { stX with live := stX.live.erase stX.globalChild }
            else stX) : EngineSt).changeCount = stX.changeCount ∧
          ((if c then { stX with live := stX.live.erase stX.globalChild }
            else stX) : EngineSt).rebuilds = stX.rebuilds ∧
          ((if c then { stX with live := stX.live.erase stX.globalChild }
            else stX) : EngineSt).resets = stX.resets := by
        intro stX
        by_cases hc : c <;> simp [hc]
      refine ⟨?_, ?_, ?_, ?_⟩
      · obtain ⟨push, hp1, hp2⟩ := f1
        refine ⟨push, hp1, ?_⟩
        rw [hp2, l1, (hD _).1, (hC st).1]
      · rw [f2, l2, (hD _).2.1, (hC st).2.1]
      · rw [f3, l3, (hD _).2.2.1, (hC st).2.2.1]
      · rw [f4, l4, (hD _).2.2.2, (hC st).2.2.2]

theorem reloadStep_parts {cfg : Cfg} {st st2 : EngineSt} {k b s : Bool}
    (h : reloadStep cfg st k b s = some st2) :
    st2.changeCount = st.changeCount ∧ st2.rebuilds = st.rebuilds ∧
    st2.resets = st.resets ∧ st2.errorLog = [] := by
  simp only [reloadStep] at h
  split at h
  · exact absurd h (by simp)
  · split at h
    · exact absurd h (by simp)
    · split at h
      · injection h with h2
        subst h2
        exact ⟨rfl, rfl, rfl, rfl⟩
      · exact absurd h (by simp)

/-- The per-iteration ghost invariant: one iteration either performs
exactly one change-threshold rebuild (counter reset to zero, both ghost
counters bumped once) or leaves the ghost counters alone and never
decreases the aggregation counter; and it preserves the error-log
bound. -/
theorem step_parts {cfg : Cfg} {st st2 : EngineSt} {inp : LoopInput}
    (h : step cfg st inp = some st2) :
    ((st2.changeCount = 0 ∧ st2.rebuilds = st.rebuilds + 1 ∧
        st2.resets = st.resets + 1) ∨
     (st.changeCount ≤ st2.changeCount ∧ st2.rebuilds = st.rebuilds ∧
        st2.resets = st.resets)) ∧
    (st.errorLog.length ≤ 5 → st2.errorLog.length ≤ 5) := by
  unfold step at h
  cases hb : branchStep cfg st inp.branch with
  | none => rw [hb] at h; exact absurd h (by simp)
  | some st1 =>
      rw [hb] at h
      dsimp only at h
      have hlen1 : st.errorLog.length ≤ 5 → st1.errorLog.length ≤ 5 := by
        intro h5
        cases hbr : inp.branch with
        | change k b s =>
            rw [hbr] at hb
            rw [(changeStep_parts hb).1]
            exact h5
        | tick c k b s dOut dErr m =>
            rw [hbr] at hb
            obtain ⟨⟨push, hp1, hp2⟩, -, -, -⟩ := tickStep_parts hb
            rw [hp2]
            have htrim := trimLog_length_le h5
            rw [List.length_append]
            omega
      have hghost1 :
          (st1.changeCount = 0 ∧ st1.rebuilds = st.rebuilds + 1 ∧
             st1.resets = st.resets + 1) ∨
          (st.changeCount ≤ st1.changeCount ∧ st1.rebuilds = st.rebuilds ∧
             st1.resets = st.resets) := by
        cases hbr : inp.branch with
        | change k b s =>
            rw [hbr] at hb
            rcases (changeStep_parts hb).2 with h2 | h2
            · exact Or.inl h2
            · exact Or.inr ⟨h2.1 ▸ Nat.le_succ _, h2.2.1, h2.2.2⟩
        | tick c k b s dOut dErr m =>
            rw [hbr] at hb
            obtain ⟨-, e2, e3, e4⟩ := tickStep_parts hb
            exact Or.inr ⟨Nat.le_of_eq e2.symm, e3, e4⟩
      split at h
      · obtain ⟨r1, r2, r3, r4⟩ := reloadStep_parts h
        have r1' : st2.changeCount = st1.changeCount := by simpa using r1
        have r2' : st2.rebuilds = st1.rebuilds := by simpa using r2
        have r3' : st2.resets = st1.resets := by simpa using r3
        refine ⟨?_, fun _ => by simp [r4]⟩
        rcases hghost1 with hg | hg
        · exact Or.inl ⟨r1' ▸ hg.1, r2' ▸ hg.2.1, r3' ▸ hg.2.2⟩
        · exact Or.inr ⟨r1' ▸ hg.1, r2' ▸ hg.2.1, r3' ▸ hg.2.2⟩
      · injection h with h2
        subst h2
        refine ⟨?_, ?_⟩
        · rcases hghost1 with hg | hg
          · exact Or.inl ⟨by simpa using hg.1, by simpa using hg.2.1,
              by simpa using hg.2.2⟩
          · exact Or.inr ⟨by simpa using hg.1, by simpa using hg.2.1,
              by simpa using hg.2.2⟩
        · intro h5
          simpa using hlen1 h5

/-- The error-log bound is an invariant of whole runs of the loop. -/
theorem runLoop_errorLog_bound {cfg : Cfg} {trace : List LoopInput}
    {st st2 : EngineSt} (h : runLoop cfg st trace = some st2)
    (hlen : st.errorLog.length ≤ 5) : st2.errorLog.length ≤ 5 := by
  induction trace generalizing st with
  | nil =>
      simp only [runLoop, Option.some.injEq] at h
      exact h ▸ hlen
  | cons i rest ih =>
      simp only [runLoop] at h
      cases hs : step cfg st i with
      | none => rw [hs] at h; exact absurd h (by simp)
      | some st1 =>
          rw [hs] at h
          exact ih h ((step_parts hs).2 hlen)

theorem runLoop_singleton (cfg : Cfg) (st : EngineSt) (i : LoopInput) :
    runLoop cfg st [i] = step cfg st i := by
  simp only [runLoop]
  cases step cfg st i <;> rfl

theorem changeStep_good_below {cfg : Cfg} {st : EngineSt}
    (h : ¬ (((st.changeCount + 1 : Nat) : Int) ≥ cfg.changesNeeded)) :
    changeStep cfg st true true true =
      some { st with changeCount := st.changeCount + 1 } := by
  simp only [changeStep]
  split
  · rename_i hcond
    exact absurd hcond h
  · rfl

theorem changeStep_good_trigger {cfg : Cfg} {st : EngineSt}
    (h : ((st.changeCount + 1 : Nat) : Int) ≥ cfg.changesNeeded) :
    changeStep cfg st true true true =
      some { st with eventCounter := st.eventCounter + 1,
                     status := StatusM.Building,
                     live := st.live.erase st.globalChild ++ [st.nextH],
                     globalChild := st.nextH, nextH := st.nextH + 1,
                     changeCount := 0, rebuilds := st.rebuilds + 1,
                     resets := st.resets + 1 } := by
  simp only [changeStep]
  split
  · split
    · rename_i hcond
      exact absurd hcond (by simp)
    · split
      · rfl
      · rename_i hcond
        exact absurd trivial hcond
  · rename_i hcond
    exact absurd h hcond

theorem step_goodChange_below {cfg : Cfg} {st : EngineSt}
    (hrp : st.reloadPending = false)
    (h : ¬ (((st.changeCount + 1 : Nat) : Int) ≥ cfg.changesNeeded)) :
    step cfg st goodChangeInput =
      some { st with changeCount := st.changeCount + 1 } := by
  have hb : branchStep cfg st goodChangeInput.branch =
      some { st with changeCount := st.changeCount + 1 } :=
    changeStep_good_below h
  unfold step
  rw [hb]
  dsimp only
  simp [goodChangeInput, hrp]

theorem step_goodChange_trigger {cfg : Cfg} {st : EngineSt}
    (hrp : st.reloadPending = false)
    (h : ((st.changeCount + 1 : Nat) : Int) ≥ cfg.changesNeeded) :
    step cfg st goodChangeInput =
      some { st with eventCounter := st.eventCounter + 1,
                     status := StatusM.Building,
                     live := st.live.erase st.globalChild ++ [st.nextH],
                     globalChild := st.nextH, nextH := st.nextH + 1,
                     changeCount := 0, rebuilds := st.rebuilds + 1,
                     resets := st.resets + 1 } := by
  have hb : branchStep cfg st goodChangeInput.branch =
      some { st with eventCounter := st.eventCounter + 1,
                     status := StatusM.Building,
                     live := st.live.erase st.globalChild ++ [st.nextH],
                     globalChild := st.nextH, nextH := st.nextH + 1,
                     changeCount := 0, rebuilds := st.rebuilds + 1,
                     resets := st.resets + 1 } :=
    changeStep_good_trigger h
  unfold step
  rw [hb]
  dsimp only
  simp [goodChangeInput, hrp]

/-- Counting behaviour of a run made of `N` successful change events:
`N / t` threshold rebuilds run, each resetting the counter exactly once,
and the counter ends at `N % t`. -/
theorem runLoop_goodChanges {t : Nat} (ht : 0 < t) (b : Bool) (r : ℚ) (N : Nat) :
    ∃ st : EngineSt,
      runLoop ⟨(t : Int), b, r⟩ initSt (List.replicate N goodChangeInput) =
        some st ∧
      st.changeCount = N % t ∧ st.rebuilds = N / t ∧ st.resets = N / t ∧
      st.reloadPending = false := by
  induction N with
  | zero =>
      refine ⟨initSt, by simp [runLoop], ?_, ?_, ?_, rfl⟩ <;> simp [initSt]
  | succ n ih =>
      obtain ⟨st, hrun, h1, h2, h3, h4⟩ := ih
      rw [List.replicate_succ', runLoop_append, hrun]
      simp only [Option.some_bind]
      rw [runLoop_singleton]
      have hmod : n % t < t := Nat.mod_lt n ht
      have hdm : t * (n / t) + n % t = n := Nat.div_add_mod n t
      by_cases hth : (((st.changeCount + 1 : Nat) : Int) ≥ ((t : Nat) : Int))
      · have hle : t ≤ st.changeCount + 1 := by exact_mod_cast hth
        have heq : n % t + 1 = t := by omega
        have hn : n + 1 = t * (n / t + 1) := by
          calc n + 1 = t * (n / t) + (n % t + 1) := by omega
          _ = t * (n / t) + t := by rw [heq]
          _ = t * (n / t + 1) := by ring
        rw [step_goodChange_trigger h4 hth]
        refine ⟨_, rfl, ?_, ?_, ?_, h4⟩
        · show (0 : Nat) = (n + 1) % t
          rw [hn, Nat.mul_mod_right]
        · show st.rebuilds + 1 = (n + 1) / t
          rw [h2, hn, Nat.mul_div_cancel_left _ ht]
        · show st.resets + 1 = (n + 1) / t
          rw [h3, hn, Nat.mul_div_cancel_left _ ht]
      · have hlt : st.changeCount + 1 < t := by
          have hnle : ¬ (t ≤ st.changeCount + 1) :=
            fun hc => hth (by exact_mod_cast hc)
          omega
        have hsmall : n % t + 1 < t := by omega
        have hn : n + 1 = t * (n / t) + (n % t + 1) := by omega
        have hmodsucc : (n + 1) % t = n % t + 1 := by
          rw [hn, Nat.mul_add_mod, Nat.mod_eq_of_lt hsmall]
        have hdivsucc : (n + 1) / t = n / t := by
          rw [hn, Nat.mul_add_div ht, Nat.div_eq_of_lt hsmall, Nat.add_zero]
        rw [step_goodChange_below h4 hth]
        refine ⟨_, rfl, ?_, ?_, ?_, h4⟩
        · show st.changeCount + 1 = (n + 1) % t
          rw [h1, hmodsucc]
        · show st.rebuilds = (n + 1) / t
          rw [h2, hdivsucc]
        · show st.resets = (n + 1) / t
          rw [h3, hdivsucc]

/-! ## Helper lemmas about the one-shot steps and the startup sequence -/

theorem run_install_process_errorLog (settings : SettingsM) (st : AppStateM)
    (o : RunOutcome) (l1 l2 : List OutLine) :
    (run_install_process settings st o l1 l2).state.errorLog = st.errorLog := by
  cases hic : settings.installCommand with
  | none => simp [run_install_process, hic]
  | some c =>
      cases hs : splitWords c with
      | nil => simp [run_install_process, hic, hs]
      | cons w ws =>
          cases o with
          | spawnErr e => simp [run_install_process, hic, hs]
          | waitErr msg => simp [run_install_process, hic, hs]
          | exited sc => cases sc <;> simp [run_install_process, hic, hs]

theorem run_one_shot_process_errorLog (settings : SettingsM) (st : AppStateM)
    (o : RunOutcome) (l1 l2 : List OutLine) :
    (run_one_shot_process settings st o l1 l2).state.errorLog = st.errorLog := by
  cases hbc : settings.buildCommand with
  | none => simp [run_one_shot_process, hbc]
  | some c =>
      cases hs : splitWords c with
      | nil => simp [run_one_shot_process, hbc, hs]
      | cons w ws =>
          cases o with
          | spawnErr e => simp [run_one_shot_process, hbc, hs]
          | waitErr msg => simp [run_one_shot_process, hbc, hs]
          | exited sc => cases sc <;> simp [run_one_shot_process, hbc, hs]

theorem run_one_shot_process_ok_of_success (settings : SettingsM)
    (st : AppStateM) (l1 l2 : List OutLine) :
    (run_one_shot_process settings st (RunOutcome.exited true) l1 l2).result =
      Except.ok () := by
  cases hbc : settings.buildCommand with
  | none => simp [run_one_shot_process, hbc]
  | some c =>
      cases hs : splitWords c with
      | nil => simp [run_one_shot_process, hbc, hs]
      | cons w ws => simp [run_one_shot_process, hbc, hs]

theorem run_install_process_err_of_failure {settings : SettingsM}
    (st : AppStateM) (l1 l2 : List OutLine) {c : String}
    (hic : settings.installCommand = some c) (hsw : splitWords c ≠ []) :
    (run_install_process settings st (RunOutcome.exited false) l1 l2).result =
      Except.error installFailEntry := by
  cases hs : splitWords c with
  | nil => exact absurd hs hsw
  | cons w ws => simp [run_install_process, hic, hs]

theorem run_one_shot_process_err_of_failure {settings : SettingsM}
    (st : AppStateM) (l1 l2 : List OutLine) {c : String}
    (hbc : settings.buildCommand = some c) (hsw : splitWords c ≠ []) :
    (run_one_shot_process settings st (RunOutcome.exited false) l1 l2).result =
      Except.error buildFailEntry := by
  cases hs : splitWords c with
  | nil => exact absurd hs hsw
  | cons w ws => simp [run_one_shot_process, hbc, hs]

/-- A failed build step makes the startup sequence end the run before
the spawn step. -/
theorem startupSequence_buildFail {settings : SettingsM} {st : AppStateM}
    {io : RunOutcome} {l1 l2 l3 l4 : List OutLine} {c : String}
    (hbc : settings.buildCommand = some c) (hsw : splitWords c ≠ []) :
    (startupSequence settings st io (RunOutcome.exited false)
        l1 l2 l3 l4).reachedSpawn = false := by
  unfold startupSequence
  have hbs : settings.buildCommand.isSome = true := by simp [hbc]
  simp only [hbs, if_true]
  rw [run_one_shot_process_err_of_failure _ l3 l4 hbc hsw]

/-! ## Claim theorems -/

/-- An empty engine-state record, used by concrete instantiations. -/
def emptyAppState : AppStateM :=
  { status := StatusM.Running, errorLog := [], stdout := [], stderr := [],
    data := "" }

/-- Claim C1: for every sequence of N filtered change events (delivered
one per loop iteration, kill/build/spawn succeeding) with N below the
threshold `changes_needed`, no rebuild is triggered and the aggregation
counter equals N — the first conjunct gives counter `N % t` and
`N / t = 0` rebuilds for `N < t`; when the count reaches the threshold,
exactly one rebuild is triggered and the counter is reset to zero
exactly once per triggered rebuild (`N / t` rebuilds and `N / t` resets
in general); and by the second conjunct no iteration of any kind — in
particular a crash-triggered respawn tick or a reload — ever decrements
the counter or resets it without a rebuild. -/
theorem claim_C1 (t : Nat) (b : Bool) (r : ℚ) (N : Nat) (ht : 0 < t) :
    (∃ st : EngineSt,
      runLoop ⟨(t : Int), b, r⟩ initSt (List.replicate N goodChangeInput) =
        some st ∧
      st.changeCount = N % t ∧ st.rebuilds = N / t ∧ st.resets = N / t) ∧
    (∀ (cfg : Cfg) (st st2 : EngineSt) (inp : LoopInput),
      step cfg st inp = some st2 →
      (st2.changeCount = 0 ∧ st2.rebuilds = st.rebuilds + 1 ∧
         st2.resets = st.resets + 1) ∨
      (st.changeCount ≤ st2.changeCount ∧ st2.rebuilds = st.rebuilds ∧
         st2.resets = st.resets)) := by
  constructor
  · obtain ⟨st, h0, h1, h2, h3, -⟩ := runLoop_goodChanges ht b r N
    exact ⟨st, h0, h1, h2, h3⟩
  · intro cfg st st2 inp h
    exact (step_parts h).1

theorem claim_C1_witness :
    0 < 3 ∧
    ((∃ st : EngineSt,
        runLoop ⟨(3 : Int), true, 512⟩ initSt
          (List.replicate 7 goodChangeInput) = some st ∧
        st.changeCount = 7 % 3 ∧ st.rebuilds = 7 / 3 ∧ st.resets = 7 / 3) ∧
     (∀ (cfg : Cfg) (st st2 : EngineSt) (inp : LoopInput),
        step cfg st inp = some st2 →
        (st2.changeCount = 0 ∧ st2.rebuilds = st.rebuilds + 1 ∧
           st2.resets = st.resets + 1) ∨
        (st.changeCount ≤ st2.changeCount ∧ st2.rebuilds = st.rebuilds ∧
           st2.resets = st.resets))) :=
  ⟨by decide, claim_C1 3 true 512 7 (by decide)⟩

/-- Configuration for the C2 run: threshold 1, no build command. -/
def c2Cfg : Cfg := { changesNeeded := 1, buildConfigured := false, maxRam := 512 }

/-- The C2 run: one change event (kill succeeds; the rebuild installs
child 1), then a tick during which a SIGHUP arrives, so the reload block
runs: it kills the stale local handle 0 (the `child` variable of `main`
is never reassigned) and installs child 2 — child 1 is never killed. -/
def c2Trace : List LoopInput :=
  [ { branch := Branch.change true true true, sighup := false,
      reloadKillOk := true, reloadBuildOk := true, reloadSpawnOk := true },
    { branch := Branch.tick false true true true [] [] none, sighup := true,
      reloadKillOk := true, reloadBuildOk := true, reloadSpawnOk := true } ]

/-- Claim C2 (code bug): the claim says that on every restart path the
previous workload handle is terminated before the replacement is
installed and that two live child handles never coexist.  The reload
path (`main.rs` line 356) kills the local variable `child`, which is
bound once at line 111 and never reassigned, instead of the current
`GLOBAL_CHILD`.  After one change-threshold rebuild (current workload:
handle 1) a reload therefore kills the long-dead handle 0 and installs
handle 2 while handle 1 is still alive: the run below ends with both
handles 1 and 2 live. -/
theorem claim_C2_bug :
    (runLoop c2Cfg initSt c2Trace).map
      (fun st => (st.live, st.globalChild, st.localChild)) =
      some ([1, 2], 2, 0) := rfl

/-- Claim C3: the engine state's error log never exceeds the cap of 5
after any run of the loop (every tick dedups and trims before appending
at most one entry), and when the dedup'd log has reached the cap the
trim evicts exactly the entry at index 0, the oldest one. -/
theorem claim_C3 :
    (∀ (cfg : Cfg) (trace : List LoopInput) (st : EngineSt),
        runLoop cfg initSt trace = some st → st.errorLog.length ≤ 5) ∧
    (∀ log : List ErrorItem, 5 ≤ (dedupConsec log).length →
        trimLog log = (dedupConsec log).tail) := by
  constructor
  · intro cfg trace st h
    exact runLoop_errorLog_bound h (by simp [initSt])
  · intro log h
    simp [trimLog, h]

/-- Configuration for the C3 witness run. -/
def c3Cfg : Cfg := { changesNeeded := 3, buildConfigured := true, maxRam := 512 }

/-- A tick whose metrics read fails. -/
def c3FailTick : LoopInput :=
  { branch := Branch.tick false true true true [] [] none, sighup := false,
    reloadKillOk := true, reloadBuildOk := true, reloadSpawnOk := true }

/-- A tick whose metrics read succeeds with a memory sample above the
ceiling. -/
def c3BreachTick : LoopInput :=
  { branch := Branch.tick false true true true [] [] (some 600), sighup := false,
    reloadKillOk := true, reloadBuildOk := true, reloadSpawnOk := true }

/-- Eight ticks that each append an error entry, alternating kinds so
that consecutive deduplication removes nothing. -/
def c3Trace : List LoopInput :=
  [c3FailTick, c3BreachTick, c3FailTick, c3BreachTick,
   c3FailTick, c3BreachTick, c3FailTick, c3BreachTick]

/-- The final state of the C3 witness run. -/
def c3FinalSt : EngineSt := (runLoop c3Cfg initSt c3Trace).getD initSt

/-- A concrete five-entry log with no consecutive duplicates. -/
def c3DupLog : List ErrorItem :=
  [metricFailEntry, overRamEntry, metricFailEntry, overRamEntry, metricFailEntry]

theorem claim_C3_witness :
    runLoop c3Cfg initSt c3Trace = some c3FinalSt ∧
    c3FinalSt.errorLog.length ≤ 5 ∧
    5 ≤ (dedupConsec c3DupLog).length ∧
    trimLog c3DupLog = (dedupConsec c3DupLog).tail :=
  ⟨rfl, claim_C3.1 c3Cfg c3Trace c3FinalSt rfl, by decide,
   claim_C3.2 c3DupLog (by decide)⟩

/-- Claim C4 counterexample: the claim states that on a termination
error a timeout error entry is appended to the persisted error log.  On
the kill-error branch (`main.rs` lines 392-398) the entry pushed is the
termination error itself: killing with a `GeneralError` failure yields a
persisted log with no `TimedOut` entry at all (while the exit code is
the non-zero 100, as claimed). -/
theorem claim_C4_counterexample :
    (gracefulExit emptyAppState
        (KillOutcome.failed ⟨ErrKind.GeneralError, "boom"⟩)).exitCode = 100 ∧
    ((gracefulExit emptyAppState
        (KillOutcome.failed ⟨ErrKind.GeneralError, "boom"⟩)).errorLog.all
      (fun e => !(e.kind == ErrKind.TimedOut))) = true := by
  exact ⟨rfl, rfl⟩

/-- Claim C4 as amended: on a graceful-exit request, if the workload
terminates within the 5-second timeout the phase is marked `Stopping`,
the final state is persisted and the process exits with code 0; on a
termination error the phase is marked `Stopping`, the termination error
itself (not a timeout entry) is appended, state is persisted and the
exit code is the distinct non-zero 100; on hitting the timeout a
`TimedOut` error entry is appended, state is persisted (the modelled
wind-down marking the phase `Stopping`) and the exit code is 100. -/
theorem claim_C4_amended (st : AppStateM) (k : KillOutcome) :
    (gracefulExit st k).status = StatusM.Stopping ∧
    (gracefulExit st k).persisted = true ∧
    ((gracefulExit st k).exitCode = 0 ↔ k = KillOutcome.success) ∧
    ((gracefulExit st k).exitCode = 0 ∨ (gracefulExit st k).exitCode = 100) ∧
    (k = KillOutcome.success → (gracefulExit st k).errorLog = st.errorLog) ∧
    (∀ e, k = KillOutcome.failed e →
      (gracefulExit st k).errorLog = st.errorLog ++ [e]) ∧
    (∀ msg, k = KillOutcome.timedOut msg →
      (gracefulExit st k).errorLog =
        st.errorLog ++ [⟨ErrKind.TimedOut, msg⟩]) := by
  cases k <;> simp [gracefulExit]

theorem claim_C4_witness :
    (gracefulExit emptyAppState (KillOutcome.timedOut "deadline")).errorLog =
      emptyAppState.errorLog ++ [⟨ErrKind.TimedOut, "deadline"⟩] ∧
    (gracefulExit emptyAppState KillOutcome.success).exitCode = 0 :=
  ⟨(claim_C4_amended emptyAppState
      (KillOutcome.timedOut "deadline")).2.2.2.2.2.2 "deadline" rfl,
   (claim_C4_amended emptyAppState KillOutcome.success).2.2.1.mpr rfl⟩

/-- Claim C5 counterexample: the claim states `run_one_shot_process`
returns `Ok` iff the configured build command exits successfully (or no
build command is configured).  With the configured build command `"   "`
(whitespace only, zero words after splitting) the function returns `Ok`
without even attempting a spawn, although a build command IS configured
and nothing exited successfully. -/
theorem claim_C5_counterexample :
    (run_one_shot_process ⟨none, some "   "⟩ emptyAppState
        (RunOutcome.exited false) [] []).result = Except.ok () ∧
    (run_one_shot_process ⟨none, some "   "⟩ emptyAppState
        (RunOutcome.exited false) [] []).spawnAttempted = false ∧
    (⟨none, some "   "⟩ : SettingsM).buildCommand ≠ none := by
  refine ⟨rfl, rfl, by simp⟩

/-- Claim C5 as amended: `run_one_shot_process` returns `Ok` iff the
build command is absent, or splits into zero words, or the spawned
command exits successfully; on a non-zero exit (as well as a spawn or
wait failure) it returns `Err`, and every caller — the change-threshold
rebuild, the crash respawn, the reload block and the startup
sequence — ends the run on that error without spawning a workload from
the failed build. -/
theorem claim_C5_amended (settings : SettingsM) (st : AppStateM)
    (outcome : RunOutcome) (co ce : List OutLine) :
    ((run_one_shot_process settings st outcome co ce).result = Except.ok () ↔
      (settings.buildCommand = none ∨
       (∃ c, settings.buildCommand = some c ∧ splitWords c = []) ∨
       outcome = RunOutcome.exited true)) ∧
    (∀ (cfg : Cfg) (est : EngineSt) (k s : Bool),
      cfg.buildConfigured = true →
      (((est.changeCount + 1 : Nat) : Int) ≥ cfg.changesNeeded) →
      changeStep cfg est k false s = none) ∧
    (∀ (cfg : Cfg) (est : EngineSt) (k s : Bool),
      cfg.buildConfigured = true → tickRespawn cfg est k false s = none) ∧
    (∀ (cfg : Cfg) (est : EngineSt) (k s : Bool),
      cfg.buildConfigured = true → reloadStep cfg est k false s = none) ∧
    (∀ (st2 : AppStateM) (io : RunOutcome) (l1 l2 l3 l4 : List OutLine)
        (c : String), settings.buildCommand = some c → splitWords c ≠ [] →
      (startupSequence settings st2 io (RunOutcome.exited false)
          l1 l2 l3 l4).reachedSpawn = false) := by
  refine ⟨?_, ?_, ?_, ?_, ?_⟩
  · constructor
    · intro hok
      cases hbc : settings.buildCommand with
      | none => exact Or.inl rfl
      | some c =>
          cases hsw : splitWords c with
          | nil => exact Or.inr (Or.inl ⟨c, rfl, hsw⟩)
          | cons w ws =>
              cases outcome with
              | spawnErr e =>
                  rw [show (run_one_shot_process settings st
                      (RunOutcome.spawnErr e) co ce).result = Except.error e by
                    simp [run_one_shot_process, hbc, hsw]] at hok
                  exact absurd hok (by simp)
              | waitErr msg =>
                  rw [show (run_one_shot_process settings st
                      (RunOutcome.waitErr msg) co ce).result =
                      Except.error ⟨ErrKind.GeneralError, msg⟩ by
                    simp [run_one_shot_process, hbc, hsw]] at hok
                  exact absurd hok (by simp)
              | exited sc =>
                  cases sc with
                  | true => exact Or.inr (Or.inr rfl)
                  | false =>
                      rw [run_one_shot_process_err_of_failure st co ce hbc
                        (by simp [hsw])] at hok
                      exact absurd hok (by simp)
    · intro hr
      rcases hr with hbc | ⟨c, hbc, hsw⟩ | hout
      · simp [run_one_shot_process, hbc]
      · simp [run_one_shot_process, hbc, hsw]
      · subst hout
        exact run_one_shot_process_ok_of_success settings st co ce
  · intro cfg est k s hbc hth
    simp only [changeStep]
    split
    · simp [hbc]
    · rename_i hcond
      exact absurd hth hcond
  · intro cfg est k s hbc
    simp [tickRespawn, hbc]
  · intro cfg est k s hbc
    simp only [reloadStep]
    split
    · rfl
    · simp [hbc]
  · intro st2 io l1 l2 l3 l4 c hbc hsw
    exact startupSequence_buildFail hbc hsw

theorem claim_C5_witness :
    (run_one_shot_process ⟨none, some "cargo build"⟩ emptyAppState
        (RunOutcome.exited true) [] []).result = Except.ok () ∧
    changeStep ⟨1, true, 512⟩ initSt true false true = none ∧
    (startupSequence (⟨none, some "cargo build"⟩ : SettingsM) emptyAppState
        (RunOutcome.exited true) (RunOutcome.exited false)
        [] [] [] []).reachedSpawn = false :=
  ⟨(claim_C5_amended ⟨none, some "cargo build"⟩ emptyAppState
      (RunOutcome.exited true) [] []).1.mpr (Or.inr (Or.inr rfl)),
   (claim_C5_amended ⟨none, some "cargo build"⟩ emptyAppState
      (RunOutcome.exited true) [] []).2.1 ⟨1, true, 512⟩ initSt true true rfl
     (by decide),
   (claim_C5_amended ⟨none, some "cargo build"⟩ emptyAppState
      (RunOutcome.exited true) [] []).2.2.2.2 emptyAppState
     (RunOutcome.exited true) [] [] [] [] "cargo build" rfl (by decide)⟩

/-- Claim C6: a raw change notification is dropped by the filter of
`monitor_directory` iff at least one of its paths has at least one
ignored path — resolved against the monitored directory by `join` — as
an ancestor-or-self prefix (same absoluteness and component-wise
prefix); every other notification is forwarded unchanged, in order. -/
theorem claim_C6 (dir : PathM) (ignoredSubdirs : List PathM)
    (events : List EventM) (ev : EventM) :
    (shouldIgnore (resolveIgnored dir ignoredSubdirs) ev = true ↔
      ∃ p ∈ ev, ∃ ig ∈ ignoredSubdirs,
        (dir.join ig).abs = p.abs ∧ (dir.join ig).comps <+: p.comps) ∧
    (ev ∈ forwardEvents dir ignoredSubdirs events ↔
      ev ∈ events ∧
        shouldIgnore (resolveIgnored dir ignoredSubdirs) ev = false) ∧
    (forwardEvents dir ignoredSubdirs events).Sublist events := by
  refine ⟨?_, ?_, List.filter_sublist events⟩
  · simp only [shouldIgnore, List.any_eq_true, resolveIgnored, List.mem_map,
      PathM.startsWith, Bool.and_eq_true, beq_iff_eq, List.isPrefixOf_iff_prefix]
    constructor
    · rintro ⟨p, hp, ig0, ⟨ig, hig, rfl⟩, habs, hpre⟩
      exact ⟨p, hp, ig, hig, habs.symm, hpre⟩
    · rintro ⟨p, hp, ig, hig, habs, hpre⟩
      exact ⟨p, hp, dir.join ig, ⟨ig, hig, rfl⟩, habs.symm, hpre⟩
  · simp only [forwardEvents, List.mem_filter, Bool.not_eq_true',
      Bool.not_eq_eq_eq_not]
    constructor
    · rintro ⟨h1, h2⟩
      exact ⟨h1, by simpa using h2⟩
    · rintro ⟨h1, h2⟩
      exact ⟨h1, by simpa using h2⟩

/-- Claim C7: the health-tick output merge is idempotent — merging the
same drained batch twice (with no new output in between) gives the same
buffer as merging it once, both for the bare merge and for the guarded
form the tick uses; and an entry of the batch already present in the
merged buffer is never re-appended (every batch entry is a member after
one merge, so the second merge's filter discards it). -/
theorem claim_C7 (buf batch : List OutLine) :
    mergeNewOutput (mergeNewOutput buf batch) batch =
      mergeNewOutput buf batch ∧
    stdMerge (stdMerge buf batch) batch = stdMerge buf batch ∧
    ∀ v ∈ batch, v ∈ mergeNewOutput buf batch := by
  have hidem : mergeNewOutput (mergeNewOutput buf batch) batch =
      mergeNewOutput buf batch :=
    mergeNewOutput_eq_self (fun v hv => mem_mergeNewOutput_of_mem_batch hv)
      (mergeNewOutput_sorted buf batch) (mergeNewOutput_chain'_ne buf batch)
  refine ⟨hidem, ?_, fun v hv => mem_mergeNewOutput_of_mem_batch hv⟩
  unfold stdMerge
  by_cases hbe : batch.isEmpty
  · simp [hbe]
  · simp [hbe, hidem]

/-- Configuration for the C8 counterexample run: memory ceiling 512. -/
def c8Cfg : Cfg := { changesNeeded := 3, buildConfigured := true, maxRam := 512 }

/-- A tick (child healthy, no drained output) whose metrics sample meets
the ceiling exactly: 512 with ceiling 512 is a breach (`>=`). -/
def c8BreachInput : LoopInput :=
  { branch := Branch.tick false true true true [] [] (some 512), sighup := false,
    reloadKillOk := true, reloadBuildOk := true, reloadSpawnOk := true }

/-- Claim C8 counterexample: the claim states that a breached memory
ceiling makes the phase enter `Warning`.  In the code (`main.rs` lines
326-330) a breach appends the `OverRamLimit` entry but then sets the
status to `Running`, not `Warning`: the tick below samples memory 512
against ceiling 512 and ends with status `Running`. -/
theorem claim_C8_counterexample :
    (step c8Cfg initSt c8BreachInput).map
      (fun st => (st.status, st.errorLog)) =
      some (StatusM.Running, [overRamEntry]) ∧
    StatusM.Running ≠ StatusM.Warning := ⟨rfl, by simp⟩

/-- Claim C8 as amended: on each periodic tick's metrics check, if
metrics are retrieved and the sampled memory meets or exceeds the
ceiling, the `OverRamLimit` entry is appended, the workload is not
killed, and the phase is set to `Running` (not `Warning`); if metrics
retrieval fails, a warning-level entry is appended and the phase is set
to `Warning`; a successful check below the ceiling sets the phase back
to `Running`.  A healthy tick never changes the set of live children. -/
theorem claim_C8_amended (cfg : Cfg) (st : EngineSt) (mem : ℚ)
    (dOut dErr : List OutLine) (k b s : Bool) :
    (cfg.maxRam ≤ mem →
      metricsBlock cfg st (some mem) =
        { st with data := "Nominal",
                  errorLog := st.errorLog ++ [overRamEntry],
                  status := StatusM.Running }) ∧
    (mem < cfg.maxRam →
      metricsBlock cfg st (some mem) =
        { st with data := "Nominal", status := StatusM.Running }) ∧
    (metricsBlock cfg st none =
      { st with data := "Failed to get metric data",
                errorLog := st.errorLog ++ [metricFailEntry],
                status := StatusM.Warning }) ∧
    (∀ m : Option ℚ, (metricsBlock cfg st m).live = st.live) ∧
    (∀ (st2 : EngineSt) (m : Option ℚ),
      st.live.contains st.globalChild = true →
      tickStep cfg st false k b s dOut dErr m = some st2 →
      st2.live = st.live) := by
  refine ⟨?_, ?_, ?_, metricsBlock_live cfg st, ?_⟩
  · intro hge
    simp [metricsBlock, hge]
  · intro hlt
    simp [metricsBlock, not_le.mpr hlt]
  · rfl
  · intro st2 m hrc h
    simp only [tickStep] at h
    have hl : tickLiveness cfg (tickDrain st dOut dErr) k b s =
        some (tickDrain st dOut dErr) := by
      unfold tickLiveness
      split
      · rfl
      · rename_i hcond
        exact absurd hrc hcond
    rw [show (if false = true then
        { st with live := st.live.erase st.globalChild } else st) = st
      from rfl] at h
    rw [hl] at h
    unfold tickFinish at h
    injection h with h2
    subst h2
    rw [metricsBlock_live]
    simp [tickDrain]

theorem claim_C8_witness :
    c8Cfg.maxRam ≤ (512 : ℚ) ∧
    metricsBlock c8Cfg initSt (some 512) =
      { initSt with data := "Nominal", errorLog := [overRamEntry],
                    status := StatusM.Running } ∧
    metricsBlock c8Cfg initSt none =
      { initSt with data := "Failed to get metric data",
                    errorLog := [metricFailEntry],
                    status := StatusM.Warning } := by
  refine ⟨by decide, ?_, ?_⟩
  · have h := (claim_C8_amended c8Cfg initSt 512 [] [] true true true).1
      (by decide)
    simpa [initSt] using h
  · have h := (claim_C8_amended c8Cfg initSt 512 [] [] true true true).2.2.1
    simpa [initSt] using h

/-- Claim C9 counterexample: the claim states that a failed install is
logged into the bounded error ring.  In `main.rs` lines 91-96 a failed
install is only written to the console log (`log!`); the error ring of
the engine state is untouched: after a failed `npm install` the
persisted error log is still empty while the sequence continued to the
spawn step. -/
theorem claim_C9_counterexample :
    (startupSequence ⟨some "npm install", none⟩ emptyAppState
        (RunOutcome.exited false) (RunOutcome.exited true)
        [] [] [] []).state.errorLog = [] ∧
    (startupSequence ⟨some "npm install", none⟩ emptyAppState
        (RunOutcome.exited false) (RunOutcome.exited true)
        [] [] [] []).reachedSpawn = true ∧
    (startupSequence ⟨some "npm install", none⟩ emptyAppState
        (RunOutcome.exited false) (RunOutcome.exited true)
        [] [] [] []).consoleErrors = [installFailEntry] ∧
    (run_install_process ⟨some "npm install", none⟩ emptyAppState
        (RunOutcome.exited false) [] []).result =
      Except.error installFailEntry := ⟨rfl, rfl, rfl, rfl⟩

/-- Claim C9 as amended: a non-zero exit of the configured install
command makes `run_install_process` return `Err`; the engine logs the
error to the console log only — the bounded error ring is not modified
on this path — and tolerates it: the startup sequence continues with the
build and spawn steps. -/
theorem claim_C9_amended (settings : SettingsM) (st0 st : AppStateM)
    (buildOutcome : RunOutcome) (l1 l2 l3 l4 : List OutLine) (c : String)
    (hic : settings.installCommand = some c) (hsw : splitWords c ≠ []) :
    (run_install_process settings st (RunOutcome.exited false) l1 l2).result =
      Except.error installFailEntry ∧
    ((settings.buildCommand = none ∨ buildOutcome = RunOutcome.exited true) →
      (startupSequence settings st0 (RunOutcome.exited false) buildOutcome
          l1 l2 l3 l4).reachedSpawn = true ∧
      (startupSequence settings st0 (RunOutcome.exited false) buildOutcome
          l1 l2 l3 l4).state.errorLog = st0.errorLog ∧
      installFailEntry ∈ (startupSequence settings st0
          (RunOutcome.exited false) buildOutcome l1 l2 l3 l4).consoleErrors) := by
  constructor
  · exact run_install_process_err_of_failure st l1 l2 hic hsw
  · intro hbuild
    have hins : settings.installCommand.isSome = true := by simp [hic]
    have hr := run_install_process_err_of_failure
      { st0 with status := StatusM.Building } l1 l2 hic hsw
    have hrel := run_install_process_errorLog settings
      { st0 with status := StatusM.Building } (RunOutcome.exited false) l1 l2
    rcases hbuild with hbc | hbo
    · have hbs : settings.buildCommand.isSome = false := by simp [hbc]
      unfold startupSequence
      simp only [hins, if_true, hr, hbs, Bool.false_eq_true, if_false]
      refine ⟨by simp, by simpa using hrel, by simp⟩
    · subst hbo
      unfold startupSequence
      simp only [hins, if_true, hr]
      by_cases hbs : settings.buildCommand.isSome
      · simp only [hbs, if_true]
        have hok := run_one_shot_process_ok_of_success settings
          (run_install_process settings { st0 with status := StatusM.Building }
            (RunOutcome.exited false) l1 l2).state l3 l4
        simp only [hok]
        have hrel2 := run_one_shot_process_errorLog settings
          (run_install_process settings { st0 with status := StatusM.Building }
            (RunOutcome.exited false) l1 l2).state
          (RunOutcome.exited true) l3 l4
        refine ⟨by simp, ?_, by simp⟩
        simpa [hrel] using hrel2
      · simp only [hbs, Bool.false_eq_true, if_false]
        refine ⟨by simp, by simpa using hrel, by simp⟩

theorem claim_C9_witness :
    (run_install_process ⟨some "npm install", some "cargo build"⟩
        emptyAppState (RunOutcome.exited false) [] []).result =
      Except.error installFailEntry ∧
    (startupSequence ⟨some "npm install", some "cargo build"⟩ emptyAppState
        (RunOutcome.exited false) (RunOutcome.exited true)
        [] [] [] []).reachedSpawn = true :=
  ⟨(claim_C9_amended ⟨some "npm install", some "cargo build"⟩ emptyAppState
      emptyAppState (RunOutcome.exited true) [] [] [] [] "npm install" rfl
      (by decide)).1,
   ((claim_C9_amended ⟨some "npm install", some "cargo build"⟩ emptyAppState
      emptyAppState (RunOutcome.exited true) [] [] [] [] "npm install" rfl
      (by decide)).2 (Or.inr rfl)).1⟩

/-- Claim C10: if the build command is absent or splits into zero
words, `run_one_shot_process` returns `Ok` without attempting any
spawn, leaving the engine state (stdout, stderr, error log, status)
unchanged. -/
theorem claim_C10 (settings : SettingsM) (st : AppStateM)
    (outcome : RunOutcome) (co ce : List OutLine)
    (h : ∀ c, settings.buildCommand = some c → splitWords c = []) :
    run_one_shot_process settings st outcome co ce =
      ⟨Except.ok (), st, false⟩ := by
  cases hbc : settings.buildCommand with
  | none => simp [run_one_shot_process, hbc]
  | some c => simp [run_one_shot_process, hbc, h c hbc]

theorem claim_C10_witness :
    run_one_shot_process ⟨none, some " "⟩ emptyAppState
        (RunOutcome.exited false) [] [] =
      ⟨Except.ok (), emptyAppState, false⟩ ∧
    run_one_shot_process ⟨none, none⟩ emptyAppState
        (RunOutcome.exited false) [(3, "line")] [] =
      ⟨Except.ok (), emptyAppState, false⟩ :=
  ⟨claim_C10 ⟨none, some " "⟩ emptyAppState (RunOutcome.exited false) [] []
     (fun c hc => by injection hc with h2; subst h2; decide),
   claim_C10 ⟨none, none⟩ emptyAppState (RunOutcome.exited false)
     [(3, "line")] [] (fun c hc => by exact absurd hc (by simp))⟩

end GenericRunner
